import Mathlib

/-!
Verification of the kinematics engine in
`src/human-interface/robotics/robot_kinematics.py` (class `RobotKinematics`
and class `TrajectoryPlanner`).

The Python code computes with NumPy double-precision floats; the embedding
idealises those as real numbers, so every numeric tolerance in the spec is
met exactly by the corresponding exact identity.  Joint vectors of length N
are embedded as functions `Fin n → ℝ` and the DH chain as `Fin n → DHParam`,
which makes the `DimensionMismatch` length check of the source hold by
typing.  NumPy operations that can raise (`np.linalg.solve`, `np.linalg.pinv`)
are embedded as `Option`-valued functions; `np.linalg.pinv` is external
library code whose numerics the engine never relies on, so the inverse
kinematics solver is parametrised over it as an oracle that either returns a
matrix or fails, exactly the two behaviours the `try/except` in the source
distinguishes.
-/

namespace Leee

/-- One row of `dh_params`: the tuple `(a, alpha, d, theta_offset)` stored at
construction time of `RobotKinematics` (`__init__`). -/
structure DHParam where
  a : ℝ
  alpha : ℝ
  d : ℝ
  theta_offset : ℝ

/-- `RobotKinematics.dh_transform`: the standard DH per-link homogeneous
transform built from `ct = cos theta`, `st = sin theta`, `ca = cos alpha`,
`sa = sin alpha`. -/
noncomputable def dh_transform (a alpha d theta : ℝ) : Matrix (Fin 4) (Fin 4) ℝ :=
  let ct := Real.cos theta
  let st := Real.sin theta
  let ca := Real.cos alpha
  let sa := Real.sin alpha
  !![ct, -st * ca, st * sa, a * ct;
     st, ct * ca, -ct * sa, a * st;
     0, sa, ca, d;
     0, 0, 0, 1]

/-- The per-link transform used at joint `i` of the chain:
`theta = joint_angles[i] + theta_offset`. -/
noncomputable def link_transform (p : DHParam) (angle : ℝ) : Matrix (Fin 4) (Fin 4) ℝ :=
  dh_transform p.a p.alpha p.d (angle + p.theta_offset)

/-- `RobotKinematics.forward_kinematics`: starting from `np.eye(4)`, multiply
the per-link transforms on the right, in chain order. -/
noncomputable def forward_kinematics {n : ℕ} (dh : Fin n → DHParam) (q : Fin n → ℝ) :
    Matrix (Fin 4) (Fin 4) ℝ :=
  (List.finRange n).foldl (fun transform i => transform * link_transform (dh i) (q i)) 1

/-- C1: `forward_kinematics` is the left-to-right chained product, starting
from the 4×4 identity, of the per-link DH transforms with
`theta = joint_vector[i] + theta_offset`; being a plain function of its
arguments it is deterministic, and the fold performs one matrix product per
link with no iterative solving. -/
theorem forward_kinematics_eq_dh_product {n : ℕ} (dh : Fin n → DHParam) (q : Fin n → ℝ) :
    forward_kinematics dh q =
      ((List.finRange n).map
        (fun i => dh_transform (dh i).a (dh i).alpha (dh i).d (q i + (dh i).theta_offset))).prod := by
  rw [forward_kinematics, List.prod_eq_foldl, List.foldl_map]
  rfl

/-- The 3×3 rotation block `pose[:3, :3]` of a 4×4 homogeneous transform. -/
def rotBlock (T : Matrix (Fin 4) (Fin 4) ℝ) : Matrix (Fin 3) (Fin 3) ℝ :=
  fun i j => T i.castSucc j.castSucc

/-- The bottom row of a homogeneous transform is `(0, 0, 0, 1)`. -/
def bottomRowId (T : Matrix (Fin 4) (Fin 4) ℝ) : Prop :=
  T 3 0 = 0 ∧ T 3 1 = 0 ∧ T 3 2 = 0 ∧ T 3 3 = 1

/-- Well-formedness invariant of a pose: homogeneous bottom row, orthonormal
rotation block with determinant 1, and determinant 1 for the full matrix. -/
def PoseWF (T : Matrix (Fin 4) (Fin 4) ℝ) : Prop :=
  bottomRowId T ∧ (rotBlock T).transpose * rotBlock T = 1 ∧
    (rotBlock T).det = 1 ∧ T.det = 1

theorem rotBlock_one : rotBlock 1 = 1 := by
  ext i j
  simp [rotBlock, Matrix.one_apply, Fin.castSucc_inj]

theorem bottomRowId_one : bottomRowId (1 : Matrix (Fin 4) (Fin 4) ℝ) := by
  refine ⟨?_, ?_, ?_, ?_⟩ <;> simp [Matrix.one_apply]

theorem poseWF_one : PoseWF 1 := by
  refine ⟨bottomRowId_one, ?_, ?_, Matrix.det_one⟩ <;> rw [rotBlock_one] <;> simp

theorem rotBlock_mul (T L : Matrix (Fin 4) (Fin 4) ℝ) (hL : bottomRowId L) :
    rotBlock (T * L) = rotBlock T * rotBlock L := by
  obtain ⟨h0, h1, h2, _⟩ := hL
  ext i j
  simp only [rotBlock, Matrix.mul_apply, Fin.sum_univ_castSucc]
  have hlast : L (Fin.last 3) j.castSucc = 0 := by
    fin_cases j
    · exact h0
    · exact h1
    · exact h2
  rw [hlast, mul_zero, add_zero]

theorem bottomRowId_mul (T L : Matrix (Fin 4) (Fin 4) ℝ) (hT : bottomRowId T)
    (hL : bottomRowId L) : bottomRowId (T * L) := by
  obtain ⟨t0, t1, t2, t3⟩ := hT
  obtain ⟨l0, l1, l2, l3⟩ := hL
  refine ⟨?_, ?_, ?_, ?_⟩ <;>
    simp [Matrix.mul_apply, Fin.sum_univ_four, t0, t1, t2, t3, l0, l1, l2, l3]

theorem poseWF_mul (T L : Matrix (Fin 4) (Fin 4) ℝ) (hT : PoseWF T) (hL : PoseWF L) :
    PoseWF (T * L) := by
  obtain ⟨hTb, hTo, hTr, hTd⟩ := hT
  obtain ⟨hLb, hLo, hLr, hLd⟩ := hL
  refine ⟨bottomRowId_mul T L hTb hLb, ?_, ?_, ?_⟩
  · rw [rotBlock_mul T L hLb, Matrix.transpose_mul]
    calc (rotBlock L).transpose * (rotBlock T).transpose * (rotBlock T * rotBlock L)
        = (rotBlock L).transpose * ((rotBlock T).transpose * rotBlock T * rotBlock L) := by
          rw [Matrix.mul_assoc, Matrix.mul_assoc]
      _ = 1 := by rw [hTo, Matrix.one_mul, hLo]
  · rw [rotBlock_mul T L hLb, Matrix.det_mul, hTr, hLr, one_mul]
  · rw [Matrix.det_mul, hTd, hLd, one_mul]

theorem dh_transform_bottomRowId (a alpha d theta : ℝ) :
    bottomRowId (dh_transform a alpha d theta) := by
  refine ⟨?_, ?_, ?_, ?_⟩ <;> rfl

/-- Determinant of a homogeneous transform with bottom row `(0,0,0,1)` equals
the determinant of its rotation block (cofactor expansion along the last
row). -/
theorem det_eq_rotBlock_det (T : Matrix (Fin 4) (Fin 4) ℝ) (hT : bottomRowId T) :
    T.det = (rotBlock T).det := by
  obtain ⟨h0, h1, h2, h3⟩ := hT
  have h34 : (3 : Fin 4) = Fin.last 3 := rfl
  rw [Matrix.det_succ_row T 3, Fin.sum_univ_four, h0, h1, h2, h3]
  have hsub : T.submatrix (Fin.succAbove 3) (Fin.succAbove 3) = rotBlock T := by
    ext i j
    rw [Matrix.submatrix_apply, h34, Fin.succAbove_last]
    rfl
  rw [hsub]
  norm_num

/-- The first factor of the DH rotation block: a rotation by `theta` about
the z axis. -/
noncomputable def rotZ (theta : ℝ) : Matrix (Fin 3) (Fin 3) ℝ :=
  !![Real.cos theta, -Real.sin theta, 0;
     Real.sin theta, Real.cos theta, 0;
     0, 0, 1]

/-- The second factor of the DH rotation block: a rotation by `alpha` about
the x axis. -/
noncomputable def rotX (alpha : ℝ) : Matrix (Fin 3) (Fin 3) ℝ :=
  !![1, 0, 0;
     0, Real.cos alpha, -Real.sin alpha;
     0, Real.sin alpha, Real.cos alpha]

theorem rotBlock_dh_transform_explicit (a alpha d theta : ℝ) :
    rotBlock (dh_transform a alpha d theta) =
      !![Real.cos theta, -Real.sin theta * Real.cos alpha, Real.sin theta * Real.sin alpha;
         Real.sin theta, Real.cos theta * Real.cos alpha, -Real.cos theta * Real.sin alpha;
         0, Real.sin alpha, Real.cos alpha] := by
  ext i j
  fin_cases i <;> fin_cases j <;> rfl

theorem rotBlock_dh_transform (a alpha d theta : ℝ) :
    rotBlock (dh_transform a alpha d theta) = rotZ theta * rotX alpha := by
  rw [rotBlock_dh_transform_explicit]
  ext i j
  fin_cases i <;> fin_cases j <;>
    simp [rotZ, rotX, Matrix.mul_apply, Fin.sum_univ_three, Matrix.vecHead, Matrix.vecTail]

theorem rotZ_transpose (theta : ℝ) :
    (rotZ theta).transpose =
      !![Real.cos theta, Real.sin theta, 0;
         -Real.sin theta, Real.cos theta, 0;
         0, 0, 1] := by
  ext i j
  fin_cases i <;> fin_cases j <;> rfl

theorem rotX_transpose (alpha : ℝ) :
    (rotX alpha).transpose =
      !![1, 0, 0;
         0, Real.cos alpha, Real.sin alpha;
         0, -Real.sin alpha, Real.cos alpha] := by
  ext i j
  fin_cases i <;> fin_cases j <;> rfl

theorem rotZ_orthonormal (theta : ℝ) : (rotZ theta).transpose * rotZ theta = 1 := by
  have hst := Real.sin_sq_add_cos_sq theta
  rw [rotZ_transpose]
  ext i j
  fin_cases i <;> fin_cases j <;>
    simp [rotZ, Matrix.mul_apply, Fin.sum_univ_three, Matrix.one_apply,
      Matrix.vecHead, Matrix.vecTail] <;>
    ring_nf <;> linarith [hst]

theorem rotX_orthonormal (alpha : ℝ) : (rotX alpha).transpose * rotX alpha = 1 := by
  have hsa := Real.sin_sq_add_cos_sq alpha
  rw [rotX_transpose]
  ext i j
  fin_cases i <;> fin_cases j <;>
    simp [rotX, Matrix.mul_apply, Fin.sum_univ_three, Matrix.one_apply,
      Matrix.vecHead, Matrix.vecTail] <;>
    ring_nf <;> linarith [hsa]

theorem rotZ_det (theta : ℝ) : (rotZ theta).det = 1 := by
  have hst := Real.sin_sq_add_cos_sq theta
  simp [rotZ, Matrix.det_fin_three, Matrix.vecHead, Matrix.vecTail]
  ring_nf
  linarith [hst]

theorem rotX_det (alpha : ℝ) : (rotX alpha).det = 1 := by
  have hsa := Real.sin_sq_add_cos_sq alpha
  simp [rotX, Matrix.det_fin_three, Matrix.vecHead, Matrix.vecTail]
  ring_nf
  linarith [hsa]

theorem dh_transform_rot_orthonormal (a alpha d theta : ℝ) :
    (rotBlock (dh_transform a alpha d theta)).transpose *
      rotBlock (dh_transform a alpha d theta) = 1 := by
  rw [rotBlock_dh_transform, Matrix.transpose_mul]
  calc (rotX alpha).transpose * (rotZ theta).transpose * (rotZ theta * rotX alpha)
      = (rotX alpha).transpose * ((rotZ theta).transpose * rotZ theta * rotX alpha) := by
        rw [Matrix.mul_assoc, Matrix.mul_assoc]
    _ = 1 := by rw [rotZ_orthonormal, Matrix.one_mul, rotX_orthonormal]

theorem dh_transform_rot_det (a alpha d theta : ℝ) :
    (rotBlock (dh_transform a alpha d theta)).det = 1 := by
  rw [rotBlock_dh_transform, Matrix.det_mul, rotZ_det, rotX_det, one_mul]

theorem dh_transform_det (a alpha d theta : ℝ) :
    (dh_transform a alpha d theta).det = 1 := by
  rw [det_eq_rotBlock_det _ (dh_transform_bottomRowId a alpha d theta),
    dh_transform_rot_det]

theorem poseWF_dh_transform (a alpha d theta : ℝ) : PoseWF (dh_transform a alpha d theta) :=
  ⟨dh_transform_bottomRowId a alpha d theta, dh_transform_rot_orthonormal a alpha d theta,
   dh_transform_rot_det a alpha d theta, dh_transform_det a alpha d theta⟩

theorem poseWF_foldl {n : ℕ} (dh : Fin n → DHParam) (q : Fin n → ℝ) (l : List (Fin n))
    (T : Matrix (Fin 4) (Fin 4) ℝ) (hT : PoseWF T) :
    PoseWF (l.foldl (fun transform i => transform * link_transform (dh i) (q i)) T) := by
  induction l generalizing T with
  | nil => exact hT
  | cons i tl ih =>
      exact ih _ (poseWF_mul _ _ hT (poseWF_dh_transform _ _ _ _))

theorem forward_kinematics_poseWF {n : ℕ} (dh : Fin n → DHParam) (q : Fin n → ℝ) :
    PoseWF (forward_kinematics dh q) :=
  poseWF_foldl dh q _ 1 poseWF_one

/-- Iteration cap of `inverse_kinematics` (`max_iterations = 100`). -/
def max_iterations : ℕ := 100

/-- Convergence tolerance of `inverse_kinematics` (`tolerance = 1e-6`). -/
noncomputable def tolerance : ℝ := 1e-6

/-- Step size of `inverse_kinematics` (`learning_rate = 0.1`). -/
noncomputable def learning_rate : ℝ := 0.1

/-- Finite-difference perturbation of `compute_jacobian` (`epsilon = 1e-6`). -/
noncomputable def epsilon : ℝ := 1e-6

/-- The per-iteration pose error
`pose_error = np.linalg.inv(current_pose) @ target_pose`.  (The current pose
always comes from `forward_kinematics`, whose determinant is 1, so the NumPy
inverse never raises on the reachable inputs and is embedded as the total
matrix inverse.) -/
noncomputable def pose_error (current target : Matrix (Fin 4) (Fin 4) ℝ) :
    Matrix (Fin 4) (Fin 4) ℝ :=
  current⁻¹ * target

/-- `error_vector`: the translation part `pose_error[:3, 3]` concatenated
with `0.5` times the skew-symmetric-to-vector extraction of the rotation
block of `pose_error`. -/
noncomputable def error_vector (E : Matrix (Fin 4) (Fin 4) ℝ) : Fin 6 → ℝ :=
  ![E 0 3, E 1 3, E 2 3,
    0.5 * (E 2 1 - E 1 2), 0.5 * (E 0 2 - E 2 0), 0.5 * (E 1 0 - E 0 1)]

/-- `np.linalg.norm` of the 6-dimensional error vector. -/
noncomputable def error_norm (e : Fin 6 → ℝ) : ℝ := Real.sqrt (∑ r, e r ^ 2)

/-- `RobotKinematics.compute_jacobian`: column `i` is built from the central
finite difference `(pose_plus - pose_minus) / (2 * epsilon)` of forward
kinematics at `joint_angles` with component `i` perturbed by `±epsilon`;
rows 0–2 are the translation part of the difference, rows 3–5 its
skew-symmetric-to-vector extraction scaled by `0.5`. -/
noncomputable def compute_jacobian {n : ℕ} (dh : Fin n → DHParam) (q : Fin n → ℝ) :
    Matrix (Fin 6) (Fin n) ℝ := fun r i =>
  let pose_plus := forward_kinematics dh (Function.update q i (q i + epsilon))
  let pose_minus := forward_kinematics dh (Function.update q i (q i - epsilon))
  let diff := fun (j k : Fin 4) => (pose_plus j k - pose_minus j k) / (2 * epsilon)
  ![diff 0 3, diff 1 3, diff 2 3,
    0.5 * (diff 2 1 - diff 1 2), 0.5 * (diff 0 2 - diff 2 0), 0.5 * (diff 1 0 - diff 0 1)] r

/-- Number of `forward_kinematics` evaluations performed by the
`compute_jacobian` loop: each pass of the `for i in range(num_joints)` loop
evaluates forward kinematics twice. -/
def jacobian_fk_evals (n : ℕ) : ℕ := (List.finRange n).foldl (fun c _ => c + 2) 0

/-- The bounded `for iteration in range(max_iterations)` loop of
`inverse_kinematics`; the fuel counts the remaining iterations and running
out of fuel is falling off the loop (`return None`).  `pinvO` is the
`np.linalg.pinv` oracle: external NumPy code that either yields an `n×6`
matrix or raises `LinAlgError` (`none`), the two behaviours the
`try/except` block distinguishes. -/
noncomputable def ikLoop {n : ℕ}
    (pinvO : Matrix (Fin 6) (Fin n) ℝ → Option (Matrix (Fin n) (Fin 6) ℝ))
    (dh : Fin n → DHParam) (target : Matrix (Fin 4) (Fin 4) ℝ) :
    ℕ → (Fin n → ℝ) → Option (Fin n → ℝ)
  | 0, _ => none
  | fuel + 1, joint_angles =>
      haveI := Classical.propDecidable
        (error_norm (error_vector
          (pose_error (forward_kinematics dh joint_angles) target)) < tolerance)
      if error_norm (error_vector
          (pose_error (forward_kinematics dh joint_angles) target)) < tolerance then
        some joint_angles
      else
        match pinvO (compute_jacobian dh joint_angles) with
        | none => none
        | some P => ikLoop pinvO dh target fuel
            (fun j => joint_angles j + learning_rate *
              P.mulVec (error_vector
                (pose_error (forward_kinematics dh joint_angles) target)) j)

/-- `RobotKinematics.inverse_kinematics`: when no initial guess is supplied
the zero vector is used; the working joint vector starts from a copy of the
guess and the loop returns the converged vector or `None`. -/
noncomputable def inverse_kinematics {n : ℕ}
    (pinvO : Matrix (Fin 6) (Fin n) ℝ → Option (Matrix (Fin n) (Fin 6) ℝ))
    (dh : Fin n → DHParam) (target : Matrix (Fin 4) (Fin 4) ℝ)
    (initial_guess : Option (Fin n → ℝ)) : Option (Fin n → ℝ) :=
  ikLoop pinvO dh target max_iterations (initial_guess.getD fun _ => 0)

theorem ikLoop_zero {n : ℕ} (pinvO : Matrix (Fin 6) (Fin n) ℝ → Option (Matrix (Fin n) (Fin 6) ℝ))
    (dh : Fin n → DHParam) (target : Matrix (Fin 4) (Fin 4) ℝ) (g : Fin n → ℝ) :
    ikLoop pinvO dh target 0 g = none := rfl

theorem ikLoop_succ_of_lt {n : ℕ}
    (pinvO : Matrix (Fin 6) (Fin n) ℝ → Option (Matrix (Fin n) (Fin 6) ℝ))
    (dh : Fin n → DHParam) (target : Matrix (Fin 4) (Fin 4) ℝ) (fuel : ℕ) (g : Fin n → ℝ)
    (h : error_norm (error_vector (pose_error (forward_kinematics dh g) target)) < tolerance) :
    ikLoop pinvO dh target (fuel + 1) g = some g := by
  rw [ikLoop]
  rw [if_pos h]

theorem ikLoop_succ_of_le {n : ℕ}
    (pinvO : Matrix (Fin 6) (Fin n) ℝ → Option (Matrix (Fin n) (Fin 6) ℝ))
    (dh : Fin n → DHParam) (target : Matrix (Fin 4) (Fin 4) ℝ) (fuel : ℕ) (g : Fin n → ℝ)
    (h : tolerance ≤ error_norm (error_vector (pose_error (forward_kinematics dh g) target))) :
    ikLoop pinvO dh target (fuel + 1) g =
      match pinvO (compute_jacobian dh g) with
      | none => none
      | some P => ikLoop pinvO dh target fuel
          (fun j => g j + learning_rate *
            P.mulVec (error_vector (pose_error (forward_kinematics dh g) target)) j) := by
  rw [ikLoop]
  rw [if_neg (not_lt.mpr h)]

/-- C7: for every chain and every joint vector with all components in
[-π, π], the rotation block R of the pose returned by `forward_kinematics`
satisfies `R.transpose * R = 1` exactly — hence entrywise within 1e-9 of the
identity — and `det R = 1`. -/
theorem fk_rotation_orthonormal {n : ℕ} (dh : Fin n → DHParam) (q : Fin n → ℝ)
    (h : ∀ i, -Real.pi ≤ q i ∧ q i ≤ Real.pi) :
    (rotBlock (forward_kinematics dh q)).transpose * rotBlock (forward_kinematics dh q) = 1 ∧
    (∀ i j, |((rotBlock (forward_kinematics dh q)).transpose *
        rotBlock (forward_kinematics dh q)) i j - (1 : Matrix (Fin 3) (Fin 3) ℝ) i j| ≤ 1e-9) ∧
    (rotBlock (forward_kinematics dh q)).det = 1 := by
  obtain ⟨-, ho, hr, -⟩ := forward_kinematics_poseWF dh q
  refine ⟨ho, ?_, hr⟩
  intro i j
  rw [ho, sub_self, abs_zero]
  norm_num

/-- A one-joint demonstration chain whose single DH row is all zeros, so its
link transform at joint angle 0 is the identity pose. -/
def demoChain : Fin 1 → DHParam := fun _ => ⟨0, 0, 0, 0⟩

/-- The zero joint vector for the demonstration chain. -/
def demoZero : Fin 1 → ℝ := fun _ => 0

/-- A pseudo-inverse oracle that always fails, modelling `np.linalg.pinv`
raising `LinAlgError`. -/
def demoPinvNone : Matrix (Fin 6) (Fin 1) ℝ → Option (Matrix (Fin 1) (Fin 6) ℝ) :=
  fun _ => none

/-- A pseudo-inverse oracle that always returns the zero matrix, making every
iteration update a no-op. -/
noncomputable def demoPinvZero : Matrix (Fin 6) (Fin 1) ℝ → Option (Matrix (Fin 1) (Fin 6) ℝ) :=
  fun _ => some 0

/-- A demonstration target pose: translation by one unit along x. -/
noncomputable def demoTarget : Matrix (Fin 4) (Fin 4) ℝ :=
  !![1, 0, 0, 1;
     0, 1, 0, 0;
     0, 0, 1, 0;
     0, 0, 0, 1]

theorem forward_kinematics_demo : forward_kinematics demoChain demoZero = 1 := by
  have hstep : forward_kinematics demoChain demoZero = link_transform ⟨0, 0, 0, 0⟩ 0 := by
    rw [forward_kinematics]
    simp [List.finRange, demoChain, demoZero]
  rw [hstep, link_transform, dh_transform]
  ext i j
  fin_cases i <;> fin_cases j <;>
    simp [Matrix.one_apply, Matrix.vecHead, Matrix.vecTail]

/-- Witness for C7 at the concrete one-joint chain and zero joint vector. -/
theorem fk_rotation_orthonormal_witness :
    (-Real.pi ≤ demoZero 0 ∧ demoZero 0 ≤ Real.pi) ∧
    (rotBlock (forward_kinematics demoChain demoZero)).transpose *
      rotBlock (forward_kinematics demoChain demoZero) = 1 ∧
    (rotBlock (forward_kinematics demoChain demoZero)).det = 1 := by
  have hp := Real.pi_pos
  have hq : ∀ i : Fin 1, -Real.pi ≤ demoZero i ∧ demoZero i ≤ Real.pi := by
    intro i
    constructor <;> simp [demoZero] <;> linarith
  obtain ⟨h1, -, h3⟩ := fk_rotation_orthonormal demoChain demoZero hq
  exact ⟨hq 0, h1, h3⟩

theorem vec6_at0 (a b c d e f : ℝ) : (![a, b, c, d, e, f] : Fin 6 → ℝ) 0 = a := rfl

theorem vec6_at1 (a b c d e f : ℝ) : (![a, b, c, d, e, f] : Fin 6 → ℝ) 1 = b := rfl

theorem vec6_at2 (a b c d e f : ℝ) : (![a, b, c, d, e, f] : Fin 6 → ℝ) 2 = c := rfl

theorem vec6_at3 (a b c d e f : ℝ) : (![a, b, c, d, e, f] : Fin 6 → ℝ) 3 = d := rfl

theorem vec6_at4 (a b c d e f : ℝ) : (![a, b, c, d, e, f] : Fin 6 → ℝ) 4 = e := rfl

theorem vec6_at5 (a b c d e f : ℝ) : (![a, b, c, d, e, f] : Fin 6 → ℝ) 5 = f := rfl

theorem error_vector_one : error_vector (1 : Matrix (Fin 4) (Fin 4) ℝ) = fun _ => 0 := by
  funext r
  fin_cases r <;>
    simp [error_vector, Matrix.one_apply, vec6_at0, vec6_at1, vec6_at2, vec6_at3,
      vec6_at4, vec6_at5]

theorem error_norm_zero : error_norm (fun _ => 0) = 0 := by
  rw [error_norm]
  simp

/-- At the exact target `forward_kinematics dh q`, the error vector measured
at the iterate `q` is identically zero (the pose inverse exists because the
pose determinant is 1). -/
theorem error_vector_self {n : ℕ} (dh : Fin n → DHParam) (q : Fin n → ℝ) :
    error_vector (pose_error (forward_kinematics dh q) (forward_kinematics dh q)) =
      fun _ => 0 := by
  have hdet : (forward_kinematics dh q).det = 1 := (forward_kinematics_poseWF dh q).2.2.2
  have hE : pose_error (forward_kinematics dh q) (forward_kinematics dh q) = 1 := by
    rw [pose_error]
    exact Matrix.nonsing_inv_mul _ (by rw [hdet]; exact isUnit_one)
  rw [hE, error_vector_one]

/-- C2: for every chain, `inverse_kinematics (forward_kinematics q) q`
succeeds, returning a joint vector whose forward kinematics equals the
target pose (hence matches it within 1e-4); and whenever the error norm at
the current iterate is below the tolerance 1e-6, the solver terminates with
success returning that iterate. -/
theorem ik_fk_roundtrip {n : ℕ}
    (pinvO : Matrix (Fin 6) (Fin n) ℝ → Option (Matrix (Fin n) (Fin 6) ℝ))
    (dh : Fin n → DHParam) (q : Fin n → ℝ) :
    (∃ sol, inverse_kinematics pinvO dh (forward_kinematics dh q) (some q) = some sol ∧
      forward_kinematics dh sol = forward_kinematics dh q ∧
      ∀ r c, |forward_kinematics dh sol r c - forward_kinematics dh q r c| ≤ 1e-4) ∧
    (∀ (target : Matrix (Fin 4) (Fin 4) ℝ) (g : Fin n → ℝ),
      error_norm (error_vector (pose_error (forward_kinematics dh g) target)) < tolerance →
      inverse_kinematics pinvO dh target (some g) = some g) := by
  have hterm : ∀ (target : Matrix (Fin 4) (Fin 4) ℝ) (g : Fin n → ℝ),
      error_norm (error_vector (pose_error (forward_kinematics dh g) target)) < tolerance →
      inverse_kinematics pinvO dh target (some g) = some g := by
    intro target g h
    rw [inverse_kinematics]
    exact ikLoop_succ_of_lt pinvO dh target 99 g h
  refine ⟨⟨q, ?_, rfl, ?_⟩, hterm⟩
  · refine hterm _ q ?_
    rw [error_vector_self, error_norm_zero, tolerance]
    norm_num
  · intro r c
    rw [sub_self, abs_zero]
    norm_num

/-- Witness for C2: at the one-joint demonstration chain with target
`forward_kinematics demoZero = 1`, the error norm at `demoZero` is below
tolerance and the solver returns `demoZero`. -/
theorem ik_fk_roundtrip_witness :
    error_norm (error_vector (pose_error (forward_kinematics demoChain demoZero)
      (forward_kinematics demoChain demoZero))) < tolerance ∧
    inverse_kinematics demoPinvNone demoChain (forward_kinematics demoChain demoZero)
      (some demoZero) = some demoZero := by
  have h : error_norm (error_vector (pose_error (forward_kinematics demoChain demoZero)
      (forward_kinematics demoChain demoZero))) < tolerance := by
    rw [error_vector_self, error_norm_zero, tolerance]
    norm_num
  exact ⟨h, (ik_fk_roundtrip demoPinvNone demoChain demoZero).2 _ demoZero h⟩

/-- With a pseudo-inverse oracle that always fails, the loop returns `None`
on its first unconverged iteration. -/
theorem ikLoop_pinvNone_eq_none {n : ℕ} (dh : Fin n → DHParam)
    (target : Matrix (Fin 4) (Fin 4) ℝ) (fuel : ℕ) (g : Fin n → ℝ)
    (h : tolerance ≤ error_norm (error_vector (pose_error (forward_kinematics dh g) target))) :
    ikLoop (fun _ => none) dh target (fuel + 1) g = none := by
  rw [ikLoop_succ_of_le _ dh target fuel g h]

/-- With a pseudo-inverse oracle that always returns the zero matrix, the
update is a no-op, so an iterate whose error stays at or above tolerance
exhausts any amount of fuel and the loop returns `None`. -/
theorem ikLoop_pinvZero_eq_none {n : ℕ} (dh : Fin n → DHParam)
    (target : Matrix (Fin 4) (Fin 4) ℝ) (fuel : ℕ) (g : Fin n → ℝ)
    (h : tolerance ≤ error_norm (error_vector (pose_error (forward_kinematics dh g) target))) :
    ikLoop (fun _ => (some 0 : Option (Matrix (Fin n) (Fin 6) ℝ))) dh target fuel g = none := by
  induction fuel with
  | zero => exact ikLoop_zero _ dh target g
  | succ k ih =>
      rw [ikLoop_succ_of_le _ dh target k g h]
      have hg : (fun j => g j + learning_rate *
          (0 : Matrix (Fin n) (Fin 6) ℝ).mulVec (error_vector
            (pose_error (forward_kinematics dh g) target)) j) = g := by
        funext j
        rw [Matrix.zero_mulVec]
        simp
      show ikLoop (fun _ => (some 0 : Option (Matrix (Fin n) (Fin 6) ℝ))) dh target k
          (fun j => g j + learning_rate * (0 : Matrix (Fin n) (Fin 6) ℝ).mulVec
            (error_vector (pose_error (forward_kinematics dh g) target)) j) = none
      rw [hg]
      exact ih

/-- C3 (amended): when the pseudo-inverse cannot be formed the solver aborts
immediately, but it returns the same `None` that a convergence failure
returns — the two failure modes are not distinguishable by the caller. -/
theorem ik_failures_both_none {n : ℕ} (dh : Fin n → DHParam)
    (target : Matrix (Fin 4) (Fin 4) ℝ) (g : Fin n → ℝ)
    (h : tolerance ≤ error_norm (error_vector (pose_error (forward_kinematics dh g) target))) :
    inverse_kinematics (fun _ => none) dh target (some g) = none ∧
    inverse_kinematics (fun _ => (some 0 : Option (Matrix (Fin n) (Fin 6) ℝ))) dh target
      (some g) = none := by
  constructor
  · rw [inverse_kinematics]
    exact ikLoop_pinvNone_eq_none dh target 99 g h
  · rw [inverse_kinematics]
    exact ikLoop_pinvZero_eq_none dh target max_iterations g h

theorem forward_kinematics_demoTarget_error :
    error_vector (pose_error (forward_kinematics demoChain demoZero) demoTarget) =
      ![1, 0, 0, 0, 0, 0] := by
  rw [forward_kinematics_demo, pose_error, inv_one, Matrix.one_mul]
  funext r
  fin_cases r <;>
    simp [error_vector, demoTarget, vec6_at0, vec6_at1, vec6_at2, vec6_at3, vec6_at4,
      vec6_at5, Matrix.vecHead, Matrix.vecTail]

theorem demoTarget_error_norm_ge :
    tolerance ≤ error_norm (error_vector
      (pose_error (forward_kinematics demoChain demoZero) demoTarget)) := by
  rw [forward_kinematics_demoTarget_error, error_norm]
  have hsum : (∑ r, (![1, 0, 0, 0, 0, 0] : Fin 6 → ℝ) r ^ 2) = 1 := by
    rw [Fin.sum_univ_six]
    simp [vec6_at0, vec6_at1, vec6_at2, vec6_at3, vec6_at4, vec6_at5]
  rw [hsum, Real.sqrt_one, tolerance]
  norm_num

/-- Witness for the amended C3 at the concrete one-joint chain, zero guess
and a target translated one unit along x (error norm 1 ≥ tolerance). -/
theorem ik_failures_both_none_witness :
    tolerance ≤ error_norm (error_vector
      (pose_error (forward_kinematics demoChain demoZero) demoTarget)) ∧
    inverse_kinematics (fun _ => none) demoChain demoTarget (some demoZero) = none ∧
    inverse_kinematics (fun _ => (some 0 : Option (Matrix (Fin 1) (Fin 6) ℝ))) demoChain
      demoTarget (some demoZero) = none := by
  have h := demoTarget_error_norm_ge
  obtain ⟨h1, h2⟩ := ik_failures_both_none demoChain demoTarget demoZero h
  exact ⟨h, h1, h2⟩

/-- C3 counterexample: at a concrete chain, target and guess, the observable
result of a run that aborts on the very first pseudo-inverse failure is the
same value `none` as the result of a run that exhausts all 100 iterations
without converging — the two failures are not reported distinctly. -/
theorem ik_singular_eq_convergence_failure :
    inverse_kinematics (fun _ => none) demoChain demoTarget (some demoZero) =
      inverse_kinematics (fun _ => (some 0 : Option (Matrix (Fin 1) (Fin 6) ℝ))) demoChain
        demoTarget (some demoZero) ∧
    inverse_kinematics (fun _ => none) demoChain demoTarget (some demoZero) = none := by
  have h := demoTarget_error_norm_ge
  have h1 : inverse_kinematics (fun _ => none) demoChain demoTarget (some demoZero) = none := by
    rw [inverse_kinematics]
    exact ikLoop_pinvNone_eq_none demoChain demoTarget 99 demoZero h
  have h2 : inverse_kinematics (fun _ => (some 0 : Option (Matrix (Fin 1) (Fin 6) ℝ)))
      demoChain demoTarget (some demoZero) = none := by
    rw [inverse_kinematics]
    exact ikLoop_pinvZero_eq_none demoChain demoTarget max_iterations demoZero h
  exact ⟨h1.trans h2.symm, h1⟩

/-- C8: `inverse_kinematics` runs the loop with fuel exactly 100; exhausted
fuel yields `None` (`ConvergenceFailure`); an unconverged iteration applies
exactly the undamped update `g + 0.1 * pinv(J) · error` (or aborts if the
pseudo-inverse fails); and a converged iteration returns the iterate. -/
theorem ik_iteration_cap {n : ℕ}
    (pinvO : Matrix (Fin 6) (Fin n) ℝ → Option (Matrix (Fin n) (Fin 6) ℝ))
    (dh : Fin n → DHParam) (target : Matrix (Fin 4) (Fin 4) ℝ) :
    (∀ g : Fin n → ℝ,
      inverse_kinematics pinvO dh target (some g) = ikLoop pinvO dh target 100 g) ∧
    (∀ g : Fin n → ℝ, ikLoop pinvO dh target 0 g = none) ∧
    (∀ (k : ℕ) (g : Fin n → ℝ),
      tolerance ≤ error_norm (error_vector (pose_error (forward_kinematics dh g) target)) →
      ikLoop pinvO dh target (k + 1) g =
        match pinvO (compute_jacobian dh g) with
        | none => none
        | some P => ikLoop pinvO dh target k
            (fun j => g j + learning_rate *
              P.mulVec (error_vector (pose_error (forward_kinematics dh g) target)) j)) ∧
    (∀ (k : ℕ) (g : Fin n → ℝ),
      error_norm (error_vector (pose_error (forward_kinematics dh g) target)) < tolerance →
      ikLoop pinvO dh target (k + 1) g = some g) := by
  refine ⟨fun g => rfl, fun g => rfl, ?_, ?_⟩
  · intro k g h
    exact ikLoop_succ_of_le pinvO dh target k g h
  · intro k g h
    exact ikLoop_succ_of_lt pinvO dh target k g h

/-- Witness for C8: the unfolding equations instantiated at the concrete
one-joint chain, the translated target (error norm 1 ≥ tolerance) and the
always-failing pseudo-inverse oracle. -/
theorem ik_iteration_cap_witness :
    tolerance ≤ error_norm (error_vector
      (pose_error (forward_kinematics demoChain demoZero) demoTarget)) ∧
    inverse_kinematics demoPinvNone demoChain demoTarget (some demoZero) =
      ikLoop demoPinvNone demoChain demoTarget 100 demoZero ∧
    ikLoop demoPinvNone demoChain demoTarget 0 demoZero = none ∧
    ikLoop demoPinvNone demoChain demoTarget 1 demoZero = none := by
  have h := demoTarget_error_norm_ge
  obtain ⟨c1, c2, c3, -⟩ := ik_iteration_cap demoPinvNone demoChain demoTarget
  refine ⟨h, c1 demoZero, c2 demoZero, ?_⟩
  have h3 := c3 0 demoZero h
  rw [h3]
  rfl

/-- The counting fold of `jacobian_fk_evals` adds 2 per element. -/
theorem foldl_add_two {α : Type} (l : List α) (c : ℕ) :
    l.foldl (fun c2 _ => c2 + 2) c = c + 2 * l.length := by
  induction l generalizing c with
  | nil => simp
  | cons x tl ih =>
      rw [List.foldl_cons, ih, List.length_cons]
      ring

/-- C6: every column `i` of `compute_jacobian` has linear part equal to the
central difference of the forward-kinematics translation at `q` with
component `i` perturbed by `±epsilon`, divided by `2·epsilon`, and angular
part equal to the skew-symmetric-to-vector extraction of the corresponding
rotation difference divided by `2·epsilon` and scaled by `0.5`; the loop
performs exactly `2·N` forward-kinematics evaluations. -/
theorem compute_jacobian_central_difference {n : ℕ} (dh : Fin n → DHParam) (q : Fin n → ℝ) :
    (∀ i : Fin n,
      compute_jacobian dh q 0 i =
        (forward_kinematics dh (Function.update q i (q i + epsilon)) 0 3 -
         forward_kinematics dh (Function.update q i (q i - epsilon)) 0 3) / (2 * epsilon) ∧
      compute_jacobian dh q 1 i =
        (forward_kinematics dh (Function.update q i (q i + epsilon)) 1 3 -
         forward_kinematics dh (Function.update q i (q i - epsilon)) 1 3) / (2 * epsilon) ∧
      compute_jacobian dh q 2 i =
        (forward_kinematics dh (Function.update q i (q i + epsilon)) 2 3 -
         forward_kinematics dh (Function.update q i (q i - epsilon)) 2 3) / (2 * epsilon) ∧
      compute_jacobian dh q 3 i = 0.5 *
        ((forward_kinematics dh (Function.update q i (q i + epsilon)) 2 1 -
          forward_kinematics dh (Function.update q i (q i - epsilon)) 2 1) / (2 * epsilon) -
         (forward_kinematics dh (Function.update q i (q i + epsilon)) 1 2 -
          forward_kinematics dh (Function.update q i (q i - epsilon)) 1 2) / (2 * epsilon)) ∧
      compute_jacobian dh q 4 i = 0.5 *
        ((forward_kinematics dh (Function.update q i (q i + epsilon)) 0 2 -
          forward_kinematics dh (Function.update q i (q i - epsilon)) 0 2) / (2 * epsilon) -
         (forward_kinematics dh (Function.update q i (q i + epsilon)) 2 0 -
          forward_kinematics dh (Function.update q i (q i - epsilon)) 2 0) / (2 * epsilon)) ∧
      compute_jacobian dh q 5 i = 0.5 *
        ((forward_kinematics dh (Function.update q i (q i + epsilon)) 1 0 -
          forward_kinematics dh (Function.update q i (q i - epsilon)) 1 0) / (2 * epsilon) -
         (forward_kinematics dh (Function.update q i (q i + epsilon)) 0 1 -
          forward_kinematics dh (Function.update q i (q i - epsilon)) 0 1) / (2 * epsilon))) ∧
    jacobian_fk_evals n = 2 * n := by
  constructor
  · intro i
    exact ⟨rfl, rfl, rfl, rfl, rfl, rfl⟩
  · rw [jacobian_fk_evals, foldl_add_two]
    rw [List.length_finRange]
    omega

/-- `TrajectoryPlanner.__init__`: stores the configured velocity and
acceleration limits. -/
structure TrajectoryPlanner where
  max_velocity : ℝ
  max_acceleration : ℝ

/-- The quintic boundary-condition matrix `A` of `plan_trajectory`,
evaluated at `t0, tf = 0.0, time_horizon`. -/
noncomputable def quintic_A (t0 tf : ℝ) : Matrix (Fin 6) (Fin 6) ℝ :=
  !![1, t0, t0^2, t0^3, t0^4, t0^5;
     0, 1, 2*t0, 3*t0^2, 4*t0^3, 5*t0^4;
     0, 0, 2, 6*t0, 12*t0^2, 20*t0^3;
     1, tf, tf^2, tf^3, tf^4, tf^5;
     0, 1, 2*tf, 3*tf^2, 4*tf^3, 5*tf^4;
     0, 0, 2, 6*tf, 12*tf^2, 20*tf^3]

/-- `b = np.column_stack([s0, v0, a0, sf, vf, af])` exactly as the source
builds it: a `dim×6` array whose six columns are the boundary vectors
(positions, velocities, and the zero accelerations at both ends). -/
noncomputable def column_stack_b {dim : ℕ} (s0 v0 sf vf : Fin dim → ℝ) :
    Matrix (Fin dim) (Fin 6) ℝ :=
  fun i k => ![s0 i, v0 i, 0, sf i, vf i, 0] k

/-- The boundary right-hand side in the 6×dim row-stacked orientation that
`np.linalg.solve(A, b)` and the sampling loop `coefficients.T @ t_vec` of
the source are written for: the transpose of the `np.column_stack` array
the source actually builds (see `quintic_b_eq_transpose`).  Used by the
intent model `plan_trajectory_rowstacked`. -/
noncomputable def quintic_b {dim : ℕ} (s0 v0 sf vf : Fin dim → ℝ) :
    Matrix (Fin 6) (Fin dim) ℝ :=
  fun r d2 => ![s0 d2, v0 d2, 0, sf d2, vf d2, 0] r

theorem quintic_b_eq_transpose {dim : ℕ} (s0 v0 sf vf : Fin dim → ℝ) :
    quintic_b s0 v0 sf vf = (column_stack_b s0 v0 sf vf).transpose := rfl

/-- `np.linalg.solve`: the unique solution of `A x = b` for invertible `A`,
`LinAlgError` (`none`) for a singular matrix. -/
noncomputable def np_linalg_solve {dim : ℕ} (A : Matrix (Fin 6) (Fin 6) ℝ)
    (b : Matrix (Fin 6) (Fin dim) ℝ) : Option (Matrix (Fin 6) (Fin dim) ℝ) :=
  haveI := Classical.propDecidable (IsUnit A.det)
  if IsUnit A.det then some (A⁻¹ * b) else none

theorem np_linalg_solve_isUnit {dim : ℕ} (A : Matrix (Fin 6) (Fin 6) ℝ)
    (b : Matrix (Fin 6) (Fin dim) ℝ) (h : IsUnit A.det) :
    np_linalg_solve A b = some (A⁻¹ * b) := by
  rw [np_linalg_solve]
  exact if_pos h

theorem np_linalg_solve_singular {dim : ℕ} (A : Matrix (Fin 6) (Fin 6) ℝ)
    (b : Matrix (Fin 6) (Fin dim) ℝ) (h : ¬ IsUnit A.det) :
    np_linalg_solve A b = none := by
  rw [np_linalg_solve]
  exact if_neg h

/-- `num_points = 100`. -/
abbrev num_points : ℕ := 100

/-- `np.linspace(t0, tf, num_points)` with `t0 = 0`: sample
`i ↦ tf·i/(num_points−1)`. -/
noncomputable def time_points (tf : ℝ) (i : Fin num_points) : ℝ := tf * i / 99

/-- One entry of `position_trajectory[i] = coefficients.T @ t_vec`. -/
noncomputable def position_sample {dim : ℕ} (coefficients : Matrix (Fin 6) (Fin dim) ℝ)
    (t : ℝ) (d2 : Fin dim) : ℝ :=
  ∑ j, coefficients j d2 * (![1, t, t^2, t^3, t^4, t^5] : Fin 6 → ℝ) j

/-- One entry of `velocity_trajectory[i] = coefficients.T @ t_vec_vel`. -/
noncomputable def velocity_sample {dim : ℕ} (coefficients : Matrix (Fin 6) (Fin dim) ℝ)
    (t : ℝ) (d2 : Fin dim) : ℝ :=
  ∑ j, coefficients j d2 * (![0, 1, 2*t, 3*t^2, 4*t^3, 5*t^4] : Fin 6 → ℝ) j

/-- Shape (rows, columns) of `np.column_stack` applied to `k` 1-D arrays of
common length `m`: each input array becomes one column of an `m×k` array. -/
def np_column_stack_shape (m k : ℕ) : ℕ × ℕ := (m, k)

/-- The core-dimension check of `np.linalg.solve(A, b)` for 2-D operands
(gufunc signature `(m,m),(m,n)->(m,n)`): `A` square, `b` with as many rows
as `A`; the call raises when it fails. -/
def np_solve_shape_ok (a b : ℕ × ℕ) : Bool :=
  decide (a.1 = a.2) && decide (b.1 = a.1)

/-- Shape of `b = np.column_stack([s0, v0, a0, sf, vf, af])` as built by
`plan_trajectory` from six boundary vectors of dimension `dim`. -/
def plan_trajectory_rhs_shape (dim : ℕ) : ℕ × ℕ := np_column_stack_shape dim 6

/-- The solve call of `plan_trajectory` passes its core-dimension check
exactly for 6-dimensional boundary vectors. -/
theorem np_solve_shape_ok_rhs_iff (dim : ℕ) :
    np_solve_shape_ok (6, 6) (plan_trajectory_rhs_shape dim) = true ↔ dim = 6 := by
  simp [np_solve_shape_ok, plan_trajectory_rhs_shape, np_column_stack_shape]

/-- The two failure modes of `plan_trajectory`: the `ValueError` raised by
the core-dimension check of `np.linalg.solve` when the right-hand side does
not have as many rows as `A`, and the `LinAlgError` raised by the solve on
a singular boundary matrix. -/
inductive PlanError where
  | shapeMismatch : PlanError
  | singularMatrix : PlanError

/-- `TrajectoryPlanner.plan_trajectory` with the NumPy failure paths
explicit.  Missing boundary velocities default to zero.  The right-hand
side `b = np.column_stack([s0, v0, a0, sf, vf, af])` is the `dim×6` array
`column_stack_b`, so the core-dimension check of `np.linalg.solve(A, b)`
rejects every call whose position dimension is not 6, before anything is
computed; when the shapes pass, the solve fails exactly on a singular
boundary matrix, and only after a successful solve are the polynomial and
its derivative sampled at the 100 linspace points.  The planner value `p`
carries the configured limits but the body never consults them. -/
noncomputable def plan_trajectory {dim : ℕ} (p : TrajectoryPlanner)
    (start_pos end_pos : Fin dim → ℝ) (start_vel end_vel : Option (Fin dim → ℝ))
    (time_horizon : ℝ) :
    Except PlanError ((Fin num_points → ℝ) × (Fin num_points → Fin dim → ℝ) ×
      (Fin num_points → Fin dim → ℝ)) :=
  if hshape : np_solve_shape_ok (6, 6) (plan_trajectory_rhs_shape dim) = true then
    haveI := Classical.propDecidable (IsUnit (quintic_A 0 time_horizon).det)
    if IsUnit (quintic_A 0 time_horizon).det then
      have hdim : dim = 6 := (np_solve_shape_ok_rhs_iff dim).mp hshape
      Except.ok
        (let coefficients := (quintic_A 0 time_horizon)⁻¹ *
            ((column_stack_b start_pos (start_vel.getD fun _ => 0) end_pos
              (end_vel.getD fun _ => 0)).submatrix (Fin.cast hdim.symm) id)
         (time_points time_horizon,
          fun i => position_sample (coefficients.submatrix id (Fin.cast hdim))
            (time_points time_horizon i),
          fun i => velocity_sample (coefficients.submatrix id (Fin.cast hdim))
            (time_points time_horizon i)))
    else Except.error PlanError.singularMatrix
  else Except.error PlanError.shapeMismatch

/-- The planner under the evident intent of the source: identical to
`plan_trajectory` except that the boundary system's right-hand side is the
row-stacked `quintic_b` — the transpose of what `np.column_stack` builds —
which is the orientation the solve call and the sampling loop of the same
function are written for.  States what the code computes once the stacking
slip recorded under C5 is fixed. -/
noncomputable def plan_trajectory_rowstacked {dim : ℕ} (p : TrajectoryPlanner)
    (start_pos end_pos : Fin dim → ℝ) (start_vel end_vel : Option (Fin dim → ℝ))
    (time_horizon : ℝ) :
    Option ((Fin num_points → ℝ) × (Fin num_points → Fin dim → ℝ) ×
      (Fin num_points → Fin dim → ℝ)) :=
  (np_linalg_solve (quintic_A 0 time_horizon)
      (quintic_b start_pos (start_vel.getD fun _ => 0) end_pos
        (end_vel.getD fun _ => 0))).map
    fun coefficients =>
      (time_points time_horizon,
       fun i => position_sample coefficients (time_points time_horizon i),
       fun i => velocity_sample coefficients (time_points time_horizon i))

set_option maxHeartbeats 1000000 in
set_option maxRecDepth 4000 in
/-- The determinant of the boundary matrix at `t0 = 0` is `4·tf⁹`: it
vanishes exactly at duration zero. -/
theorem quintic_A_det (T : ℝ) : (quintic_A 0 T).det = 4 * T ^ 9 := by
  simp [quintic_A, Matrix.det_succ_row_zero, Fin.sum_univ_succ, Matrix.det_fin_three,
    Matrix.vecHead, Matrix.vecTail]
  ring

theorem quintic_A_isUnit_iff (T : ℝ) : IsUnit (quintic_A 0 T).det ↔ T ≠ 0 := by
  rw [quintic_A_det, isUnit_iff_ne_zero]
  constructor
  · intro h hT
    apply h
    rw [hT]
    norm_num
  · intro hT
    exact mul_ne_zero (by norm_num) (pow_ne_zero _ hT)

/-- C4 (amended): `plan_trajectory` fails with the solve shape error at
every duration whenever the position dimension is not 6 — in particular for
the documented 3-vector inputs — and never with `LinearSystemUnsolvable`
there; the boundary-condition matrix is singular exactly when the duration
is 0, so the `LinearSystemUnsolvable` failure occurs precisely for
shape-passing (6-dimensional) input at duration 0; every failure is an
error value carrying no samples, produced before any sampling. -/
theorem plan_trajectory_fail_characterisation {dim : ℕ} (p : TrajectoryPlanner)
    (s e : Fin dim → ℝ) (v0 vf : Option (Fin dim → ℝ)) (T : ℝ) :
    (dim ≠ 6 →
      plan_trajectory p s e v0 vf T = Except.error PlanError.shapeMismatch) ∧
    (plan_trajectory p s e v0 vf T = Except.error PlanError.singularMatrix ↔
      dim = 6 ∧ T = 0) ∧
    ((quintic_A 0 T).det = 0 ↔ T = 0) := by
  refine ⟨?_, ?_, ?_⟩
  · intro hdim
    rw [plan_trajectory,
      dif_neg (fun hs => hdim ((np_solve_shape_ok_rhs_iff dim).mp hs))]
  · by_cases hdim : dim = 6
    · rw [plan_trajectory, dif_pos ((np_solve_shape_ok_rhs_iff dim).mpr hdim)]
      by_cases hU : IsUnit (quintic_A 0 T).det
      · rw [if_pos hU]
        have hT : T ≠ 0 := (quintic_A_isUnit_iff T).mp hU
        simp [hT]
      · rw [if_neg hU]
        have hT0 : T = 0 := by
          by_contra hT
          exact hU ((quintic_A_isUnit_iff T).mpr hT)
        simp [hdim, hT0]
    · rw [plan_trajectory,
        dif_neg (fun hs => hdim ((np_solve_shape_ok_rhs_iff dim).mp hs))]
      simp [hdim]
  · rw [quintic_A_det]
    constructor
    · intro h
      by_contra hT
      exact mul_ne_zero (by norm_num) (pow_ne_zero 9 hT) h
    · intro hT
      rw [hT]
      norm_num

/-- The spec scenario start position `[0.3, 0, 0.2]`. -/
noncomputable def demo3Start : Fin 3 → ℝ := ![0.3, 0, 0.2]

/-- The spec scenario end position `[0.5, 0.3, 0.4]`. -/
noncomputable def demo3End : Fin 3 → ℝ := ![0.5, 0.3, 0.4]

/-- C4 counterexample: at the concrete 3-dimensional scenario positions and
the concrete duration −1 ≤ 0, `plan_trajectory` does not fail with
`LinearSystemUnsolvable`: the solve shape check rejects the call — exactly
as it does at the positive duration 2 — and the boundary matrix at
duration −1 is nonsingular anyway (determinant −4). -/
theorem plan_trajectory_shape_error_at_neg_one :
    plan_trajectory ⟨1, 0.5⟩ demo3Start demo3End none none (-1) =
      Except.error PlanError.shapeMismatch ∧
    plan_trajectory ⟨1, 0.5⟩ demo3Start demo3End none none 2 =
      Except.error PlanError.shapeMismatch ∧
    (quintic_A 0 (-1)).det = -4 := by
  refine ⟨rfl, rfl, ?_⟩
  rw [quintic_A_det]
  norm_num

/-- Witness for the amended C4 at the concrete 3-dimensional scenario input
and duration 2. -/
theorem plan_trajectory_fail_characterisation_witness :
    (3 : ℕ) ≠ 6 ∧
    plan_trajectory ⟨1, 0.5⟩ demo3Start demo3End none none 2 =
      Except.error PlanError.shapeMismatch ∧
    ((quintic_A 0 (2 : ℝ)).det = 0 ↔ (2 : ℝ) = 0) := by
  have h36 : (3 : ℕ) ≠ 6 := by decide
  obtain ⟨c1, -, c3⟩ := plan_trajectory_fail_characterisation
    (⟨1, 0.5⟩ : TrajectoryPlanner) demo3Start demo3End none none (2 : ℝ)
  exact ⟨h36, c1 h36, c3⟩

/-- C9: `plan_trajectory` never consults the stored `max_velocity` and
`max_acceleration`: two planners with arbitrary configurations return
identical `(time, position, velocity)` outputs on every identical input —
no check, clamping or rejection ever happens. -/
theorem plan_trajectory_config_independent {dim : ℕ} (p1 p2 : TrajectoryPlanner)
    (s e : Fin dim → ℝ) (v0 vf : Option (Fin dim → ℝ)) (T : ℝ) :
    plan_trajectory p1 s e v0 vf T = plan_trajectory p2 s e v0 vf T := rfl

/-- C5 (evaluation of the code at the failing input): for the documented
3-dimensional positions the `np.column_stack` right-hand side has shape
3×6, the solve call's core-dimension check fails — `np.linalg.solve`
raises before any sampling, so no trajectory is produced for any duration —
and the check could only pass for 6-dimensional positions. -/
theorem plan_trajectory_rhs_shape_mismatch :
    plan_trajectory_rhs_shape 3 = (3, 6) ∧
    np_solve_shape_ok (6, 6) (plan_trajectory_rhs_shape 3) = false ∧
    ∀ dim : ℕ, (np_solve_shape_ok (6, 6) (plan_trajectory_rhs_shape dim) = true ↔ dim = 6) := by
  refine ⟨rfl, rfl, ?_⟩
  intro dim
  simp [np_solve_shape_ok, plan_trajectory_rhs_shape, np_column_stack_shape]

theorem time_points_zero (T : ℝ) : time_points T 0 = 0 := by
  rw [time_points]
  norm_num

theorem time_points_last (T : ℝ) : time_points T 99 = T := by
  rw [time_points]
  have hval : ((99 : Fin num_points) : ℕ) = 99 := rfl
  rw [hval, mul_div_assoc]
  norm_num

theorem time_points_strictMono (T : ℝ) (hT : 0 < T) : StrictMono (time_points T) := by
  intro i j hij
  rw [time_points, time_points, div_lt_div_iff_of_pos_right (by norm_num : (0:ℝ) < 99)]
  have hij2 : ((i : ℕ) : ℝ) < ((j : ℕ) : ℝ) := by exact_mod_cast hij
  exact mul_lt_mul_of_pos_left hij2 hT

/-- A polynomial-evaluation sum against a vector that coincides with row `r`
of `A` is the corresponding entry of `A * coefficients`. -/
theorem sample_eq_mul_row {dim : ℕ} (A : Matrix (Fin 6) (Fin 6) ℝ)
    (coefficients : Matrix (Fin 6) (Fin dim) ℝ) (v : Fin 6 → ℝ) (r : Fin 6)
    (hrow : ∀ j, v j = A r j) (d2 : Fin dim) :
    (∑ j, coefficients j d2 * v j) = (A * coefficients) r d2 := by
  rw [Matrix.mul_apply]
  exact Finset.sum_congr rfl fun j _ => by rw [hrow j, mul_comm]

/-- Under the evident intent of the source — the row-stacked right-hand
side of `plan_trajectory_rowstacked`, see `plan_trajectory_rhs_shape_mismatch`
for the slip in the code as written — every nonzero duration yields the
full 100-sample trajectory whose position and velocity at both endpoints
reproduce the boundary conditions exactly, with a strictly increasing time
array from 0 to the duration whenever the duration is positive. -/
theorem plan_trajectory_endpoints {dim : ℕ} (p : TrajectoryPlanner)
    (s e v0 vf : Fin dim → ℝ) (T : ℝ) (hT : T ≠ 0) :
    ∃ tr, plan_trajectory_rowstacked p s e (some v0) (some vf) T = some tr ∧
      num_points = 100 ∧
      tr.1 0 = 0 ∧ tr.1 99 = T ∧
      (∀ d2, tr.2.1 0 d2 = s d2) ∧ (∀ d2, tr.2.1 99 d2 = e d2) ∧
      (∀ d2, tr.2.2 0 d2 = v0 d2) ∧ (∀ d2, tr.2.2 99 d2 = vf d2) ∧
      (0 < T → StrictMono tr.1) := by
  have hu : IsUnit (quintic_A 0 T).det := (quintic_A_isUnit_iff T).mpr hT
  have hAb : quintic_A 0 T * ((quintic_A 0 T)⁻¹ * quintic_b s v0 e vf) =
      quintic_b s v0 e vf := by
    rw [← Matrix.mul_assoc, Matrix.mul_nonsing_inv _ hu, Matrix.one_mul]
  refine ⟨(time_points T,
      fun i => position_sample ((quintic_A 0 T)⁻¹ * quintic_b s v0 e vf) (time_points T i),
      fun i => velocity_sample ((quintic_A 0 T)⁻¹ * quintic_b s v0 e vf) (time_points T i)),
    ?_, rfl, time_points_zero T, time_points_last T, ?_, ?_, ?_, ?_, ?_⟩
  · rw [plan_trajectory_rowstacked]
    rw [show (some v0).getD (fun _ => (0:ℝ)) = v0 from rfl,
      show (some vf).getD (fun _ => (0:ℝ)) = vf from rfl,
      np_linalg_solve_isUnit _ _ hu]
    rfl
  · intro d2
    simp only [position_sample]
    rw [time_points_zero,
      sample_eq_mul_row (quintic_A 0 T) _ _ 0 (fun j => by fin_cases j <;> rfl) d2, hAb]
    rfl
  · intro d2
    simp only [position_sample]
    rw [time_points_last,
      sample_eq_mul_row (quintic_A 0 T) _ _ 3 (fun j => by fin_cases j <;> rfl) d2, hAb]
    rfl
  · intro d2
    simp only [velocity_sample]
    rw [time_points_zero,
      sample_eq_mul_row (quintic_A 0 T) _ _ 1 (fun j => by fin_cases j <;> rfl) d2, hAb]
    rfl
  · intro d2
    simp only [velocity_sample]
    rw [time_points_last,
      sample_eq_mul_row (quintic_A 0 T) _ _ 4 (fun j => by fin_cases j <;> rfl) d2, hAb]
    rfl
  · intro hTpos
    exact time_points_strictMono T hTpos

/-- A store of NumPy arrays of length `n`: the mutable heap the Python
function operates on.  `size` is the allocation high-water mark; references
below `size` are the live arrays. -/
structure ArrayStore (n : ℕ) where
  size : ℕ
  data : ℕ → Fin n → ℝ

/-- `initial_guess.copy()`: allocate a fresh array holding the values of the
array at reference `r`. -/
def allocCopy {n : ℕ} (s : ArrayStore n) (r : ℕ) : ℕ × ArrayStore n :=
  (s.size, ⟨s.size + 1, fun r2 => if r2 = s.size then s.data r else s.data r2⟩)

/-- The in-place update `joint_angles += ...` performed on the array at
reference `r`. -/
def storeWrite {n : ℕ} (s : ArrayStore n) (r : ℕ) (v : Fin n → ℝ) : ArrayStore n :=
  ⟨s.size, fun r2 => if r2 = r then v else s.data r2⟩

theorem storeWrite_data_ne {n : ℕ} (s : ArrayStore n) (r : ℕ) (v : Fin n → ℝ)
    (r2 : ℕ) (h : r2 ≠ r) : (storeWrite s r v).data r2 = s.data r2 := by
  rw [storeWrite]
  exact if_neg h

theorem storeWrite_data_self {n : ℕ} (s : ArrayStore n) (r : ℕ) (v : Fin n → ℝ) :
    (storeWrite s r v).data r = v := by
  rw [storeWrite]
  exact if_pos rfl

/-- The iteration loop of `inverse_kinematics` acting on the array store:
every read of the working joint vector and every in-place `+=` update goes
through the working reference `r`. -/
noncomputable def ikLoopStore {n : ℕ}
    (pinvO : Matrix (Fin 6) (Fin n) ℝ → Option (Matrix (Fin n) (Fin 6) ℝ))
    (dh : Fin n → DHParam) (target : Matrix (Fin 4) (Fin 4) ℝ) :
    ℕ → ℕ → ArrayStore n → Option (Fin n → ℝ) × ArrayStore n
  | 0, _, s => (none, s)
  | fuel + 1, r, s =>
      haveI := Classical.propDecidable
        (error_norm (error_vector
          (pose_error (forward_kinematics dh (s.data r)) target)) < tolerance)
      if error_norm (error_vector
          (pose_error (forward_kinematics dh (s.data r)) target)) < tolerance then
        (some (s.data r), s)
      else
        match pinvO (compute_jacobian dh (s.data r)) with
        | none => (none, s)
        | some P => ikLoopStore pinvO dh target fuel r
            (storeWrite s r (fun j => s.data r j + learning_rate *
              P.mulVec (error_vector
                (pose_error (forward_kinematics dh (s.data r)) target)) j))

/-- `inverse_kinematics` at the store level: `joint_angles =
initial_guess.copy()` allocates a fresh working array, and the loop runs on
that copy. -/
noncomputable def inverse_kinematics_store {n : ℕ}
    (pinvO : Matrix (Fin 6) (Fin n) ℝ → Option (Matrix (Fin n) (Fin 6) ℝ))
    (dh : Fin n → DHParam) (target : Matrix (Fin 4) (Fin 4) ℝ)
    (guessRef : ℕ) (s : ArrayStore n) : Option (Fin n → ℝ) × ArrayStore n :=
  ikLoopStore pinvO dh target max_iterations (allocCopy s guessRef).1 (allocCopy s guessRef).2

/-- The loop writes only at the working reference: every other array in the
store is untouched. -/
theorem ikLoopStore_frame {n : ℕ}
    (pinvO : Matrix (Fin 6) (Fin n) ℝ → Option (Matrix (Fin n) (Fin 6) ℝ))
    (dh : Fin n → DHParam) (target : Matrix (Fin 4) (Fin 4) ℝ) (fuel : ℕ) :
    ∀ (r : ℕ) (s : ArrayStore n) (r2 : ℕ), r2 ≠ r →
      ((ikLoopStore pinvO dh target fuel r s).2).data r2 = s.data r2 := by
  induction fuel with
  | zero => intro r s r2 h; rfl
  | succ k ih =>
      intro r s r2 h
      rw [ikLoopStore]
      by_cases hc : error_norm (error_vector
          (pose_error (forward_kinematics dh (s.data r)) target)) < tolerance
      · rw [if_pos hc]
      · rw [if_neg hc]
        cases hp : pinvO (compute_jacobian dh (s.data r)) with
        | none => rfl
        | some P =>
            show ((ikLoopStore pinvO dh target k r (storeWrite s r _)).2).data r2 = s.data r2
            rw [ih r _ r2 h, storeWrite_data_ne _ _ _ _ h]

/-- The result of the store-level loop agrees with the pure loop run on the
values held at the working reference. -/
theorem ikLoopStore_fst {n : ℕ}
    (pinvO : Matrix (Fin 6) (Fin n) ℝ → Option (Matrix (Fin n) (Fin 6) ℝ))
    (dh : Fin n → DHParam) (target : Matrix (Fin 4) (Fin 4) ℝ) (fuel : ℕ) :
    ∀ (r : ℕ) (s : ArrayStore n),
      (ikLoopStore pinvO dh target fuel r s).1 = ikLoop pinvO dh target fuel (s.data r) := by
  induction fuel with
  | zero => intro r s; rfl
  | succ k ih =>
      intro r s
      rw [ikLoopStore, ikLoop]
      by_cases hc : error_norm (error_vector
          (pose_error (forward_kinematics dh (s.data r)) target)) < tolerance
      · rw [if_pos hc, if_pos hc]
      · rw [if_neg hc, if_neg hc]
        cases hp : pinvO (compute_jacobian dh (s.data r)) with
        | none => rfl
        | some P =>
            show (ikLoopStore pinvO dh target k r (storeWrite s r _)).1 = _
            rw [ih r _, storeWrite_data_self]

/-- C10: `inverse_kinematics` leaves the caller's `initial_guess` array
unchanged, whether it succeeds or fails: every update is applied to the
private copy made on entry, and the call returns exactly what the pure
solver computes from the guess values. -/
theorem ik_preserves_initial_guess {n : ℕ}
    (pinvO : Matrix (Fin 6) (Fin n) ℝ → Option (Matrix (Fin n) (Fin 6) ℝ))
    (dh : Fin n → DHParam) (target : Matrix (Fin 4) (Fin 4) ℝ)
    (guessRef : ℕ) (s : ArrayStore n) (h : guessRef < s.size) :
    ((inverse_kinematics_store pinvO dh target guessRef s).2).data guessRef =
      s.data guessRef ∧
    (inverse_kinematics_store pinvO dh target guessRef s).1 =
      inverse_kinematics pinvO dh target (some (s.data guessRef)) := by
  have hne : guessRef ≠ s.size := Nat.ne_of_lt h
  constructor
  · rw [inverse_kinematics_store]
    have hfst : (allocCopy s guessRef).1 = s.size := rfl
    rw [hfst, ikLoopStore_frame pinvO dh target max_iterations s.size _ guessRef hne]
    rw [allocCopy]
    exact if_neg hne
  · rw [inverse_kinematics_store, ikLoopStore_fst, inverse_kinematics]
    have hdata : ((allocCopy s guessRef).2).data (allocCopy s guessRef).1 =
        s.data guessRef := by
      rw [allocCopy]
      exact if_pos rfl
    rw [hdata]
    rfl

/-- A concrete one-array store for the C10 witness. -/
def demoStore : ArrayStore 1 := ⟨1, fun _ _ => 0⟩

/-- Witness for C10 at the concrete store holding one zero array, with the
always-failing pseudo-inverse oracle and the translated demo target. -/
theorem ik_preserves_initial_guess_witness :
    0 < demoStore.size ∧
    ((inverse_kinematics_store demoPinvNone demoChain demoTarget 0 demoStore).2).data 0 =
      demoStore.data 0 ∧
    (inverse_kinematics_store demoPinvNone demoChain demoTarget 0 demoStore).1 =
      inverse_kinematics demoPinvNone demoChain demoTarget (some (demoStore.data 0)) := by
  have h : (0 : ℕ) < demoStore.size := Nat.zero_lt_one
  obtain ⟨h1, h2⟩ :=
    ik_preserves_initial_guess demoPinvNone demoChain demoTarget 0 demoStore h
  exact ⟨h, h1, h2⟩

end Leee
